import Mathlib

set_option maxRecDepth 40000

/-!
Verification of `bogoDB/candidate_submission/optimize_graph.py`.

The script builds a weighted directed graph as a Python dict mapping
stringified node indices to dicts mapping stringified target indices to
float edge weights.  We embed it shallowly:

* node keys are decimal strings, produced by `str_of_nat` (the model of
  Python's `str` on non-negative ints);
* a Python dict is an association list with insertion-order keys and
  last-write-wins updates (`dinsert`);
* edge weights are rationals (every weight constant in the script is an
  exact small float, so `ℚ` represents them exactly);
* functions that can raise return `Option` (`none` models the raised
  exception).
-/

namespace BogoDB

/-- Decimal digits of `n`, least significant first, via fuel recursion so
that the kernel can evaluate it.  Agrees with `Nat.digits 10` (proved
below); `natDigits 0 = []`. -/
def natDigitsAux : ℕ → ℕ → List ℕ
  | 0, _ => []
  | _ + 1, 0 => []
  | fuel + 1, n + 1 => ((n + 1) % 10) :: natDigitsAux fuel ((n + 1) / 10)

def natDigits (n : ℕ) : List ℕ := natDigitsAux n n

theorem natDigitsAux_eq_digits : ∀ (fuel n : ℕ), n ≤ fuel → natDigitsAux fuel n = Nat.digits 10 n
  | 0, 0, _ => by simp [natDigitsAux]
  | 0, _ + 1, h => absurd h (by omega)
  | _ + 1, 0, _ => by simp [natDigitsAux]
  | fuel + 1, n + 1, h => by
    rw [natDigitsAux, natDigitsAux_eq_digits fuel ((n + 1) / 10) (by omega),
      Nat.digits_def' (by norm_num : (1 : ℕ) < 10) (Nat.succ_pos n)]

theorem natDigits_eq_digits (n : ℕ) : natDigits n = Nat.digits 10 n :=
  natDigitsAux_eq_digits n n le_rfl

/-- Model of Python's `str` on a non-negative int: the decimal
representation of `n`. -/
def str_of_nat (n : ℕ) : String :=
  if n = 0 then "0" else String.mk ((natDigits n).reverse.map Nat.digitChar)

theorem digitChar_inj_of_lt_ten {d e : ℕ} (hd : d < 10) (he : e < 10)
    (h : Nat.digitChar d = Nat.digitChar e) : d = e := by
  interval_cases d <;> interval_cases e <;> simp_all [Nat.digitChar]

theorem map_digitChar_inj : ∀ {l₁ l₂ : List ℕ}, (∀ x ∈ l₁, x < 10) → (∀ x ∈ l₂, x < 10) →
    l₁.map Nat.digitChar = l₂.map Nat.digitChar → l₁ = l₂
  | [], [], _, _, _ => rfl
  | [], _ :: _, _, _, h => by simp at h
  | _ :: _, [], _, _, h => by simp at h
  | a :: l₁, b :: l₂, h₁, h₂, h => by
    simp only [List.map_cons, List.cons.injEq] at h
    have ha : a = b := digitChar_inj_of_lt_ten (h₁ a (by simp)) (h₂ b (by simp)) h.1
    have : l₁ = l₂ :=
      map_digitChar_inj (fun x hx => h₁ x (by simp [hx])) (fun x hx => h₂ x (by simp [hx])) h.2
    rw [ha, this]

theorem mem_natDigits_lt_ten {n d : ℕ} (hd : d ∈ natDigits n) : d < 10 := by
  rw [natDigits_eq_digits] at hd
  exact Nat.digits_lt_base (by norm_num) hd

theorem str_of_nat_injective : Function.Injective str_of_nat := by
  have key : ∀ m n : ℕ, m ≠ 0 → n ≠ 0 → str_of_nat m = str_of_nat n → m = n := by
    intro m n hm hn h
    rw [str_of_nat, if_neg hm, str_of_nat, if_neg hn] at h
    have hdata : (natDigits m).reverse.map Nat.digitChar = (natDigits n).reverse.map Nat.digitChar :=
      congrArg String.data h
    have hrev : (natDigits m).reverse = (natDigits n).reverse :=
      map_digitChar_inj (fun x hx => mem_natDigits_lt_ten (List.mem_reverse.mp hx))
        (fun x hx => mem_natDigits_lt_ten (List.mem_reverse.mp hx)) hdata
    have hdig : natDigits m = natDigits n := List.reverse_injective hrev
    rw [natDigits_eq_digits, natDigits_eq_digits] at hdig
    calc m = Nat.ofDigits 10 (Nat.digits 10 m) := (Nat.ofDigits_digits 10 m).symm
    _ = Nat.ofDigits 10 (Nat.digits 10 n) := by rw [hdig]
    _ = n := Nat.ofDigits_digits 10 n
  have zero_ne : ∀ n : ℕ, n ≠ 0 → str_of_nat 0 ≠ str_of_nat n := by
    intro n hn h
    rw [str_of_nat, if_pos rfl, str_of_nat, if_neg hn] at h
    have hdata : ['0'] = (natDigits n).reverse.map Nat.digitChar := congrArg String.data h
    have h1 : ((natDigits n).reverse.map Nat.digitChar).length = 1 := by rw [← hdata]; rfl
    simp only [List.length_map, List.length_reverse] at h1
    obtain ⟨d, hd⟩ : ∃ d, natDigits n = [d] := by
      match hnd : natDigits n with
      | [] => rw [hnd] at h1; simp at h1
      | [d] => exact ⟨d, rfl⟩
      | _ :: _ :: _ => rw [hnd] at h1; simp at h1
    rw [hd] at hdata
    simp only [List.reverse_cons, List.reverse_nil, List.nil_append, List.map_cons,
      List.map_nil, List.cons.injEq] at hdata
    have hd10 : d < 10 := mem_natDigits_lt_ten (by rw [hd]; simp)
    have hd0 : d = 0 := by
      refine digitChar_inj_of_lt_ten hd10 (by norm_num) ?_
      rw [show Nat.digitChar 0 = '0' from rfl]
      exact hdata.1.symm
    have : n = Nat.ofDigits 10 (Nat.digits 10 n) := (Nat.ofDigits_digits 10 n).symm
    rw [← natDigits_eq_digits, hd, hd0] at this
    simp [Nat.ofDigits] at this
    exact hn this
  intro m n h
  rcases eq_or_ne m 0 with rfl | hm
  · rcases eq_or_ne n 0 with rfl | hn
    · rfl
    · exact absurd h (zero_ne n hn)
  · rcases eq_or_ne n 0 with rfl | hn
    · exact absurd h.symm (zero_ne m hm)
    · exact key m n hm hn h

/-! ## Data model

A Python dict is modelled as an association list in insertion order;
`dinsert` is `d[k] = v`: it overwrites the value in place when the key is
present (last write wins, position kept) and appends otherwise. -/

abbrev Edges := List (String × ℚ)

abbrev Graph := List (String × Edges)

def dinsert (k : String) (v : ℚ) : Edges → Edges
  | [] => [(k, v)]
  | (k', v') :: rest => if k' = k then (k, v) :: rest else (k', v') :: dinsert k v rest

/-! ## Architecture and weight constants (lines 21-28 of the script) -/

def INNER_RING_SIZE : ℕ := 10

def MEDIUM_RING_SIZE : ℕ := 50

def PRIMARY_WEIGHT : ℚ := 10

def SECONDARY_WEIGHT : ℚ := 8

def BACKUP_WEIGHT : ℚ := 1

def MEDIUM_RING_LOOPBACK_WEIGHT : ℚ := 9

/-! ## Query analyzer (`analyze_query_patterns`, lines 139-170)

A results record is modelled by the list of `target` fields of its
`detailed_results` entries (Python ints, so `ℤ`). -/

/-- Python's `max(seq)`: raises (returns `none`) on an empty sequence. -/
def pymax {α : Type} [Max α] : List α → Option α
  | [] => none
  | x :: xs => some (xs.foldl max x)

/-- The distinct values of `l` in order of first encounter (the key order
of `collections.Counter(l)`). -/
def firstOccurrences : List ℤ → List ℤ
  | [] => []
  | t :: rest => t :: (firstOccurrences rest).filter (fun x => x ≠ t)

/-- `Counter(l).items()`: each distinct value of `l`, in first-encounter
order, paired with its number of occurrences. -/
def counterItems (l : List ℤ) : List (ℤ × ℕ) :=
  (firstOccurrences l).map fun t => (t, l.count t)

/-- Insert `p` in front of the first element whose count is `≤ p.2`.
Folding this from the right is a stable sort by count descending, the
behaviour of `sorted(..., key=lambda x: x[1], reverse=True)`. -/
def insertByCount (p : ℤ × ℕ) : List (ℤ × ℕ) → List (ℤ × ℕ)
  | [] => [p]
  | q :: rest => if q.2 ≤ p.2 then p :: q :: rest else q :: insertByCount p rest

def sortByCountDesc : List (ℤ × ℕ) → List (ℤ × ℕ)
  | [] => []
  | p :: rest => insertByCount p (sortByCountDesc rest)

/-- The local `sorted_targets` ranking of `analyze_query_patterns`. -/
def ranking (query_targets : List ℤ) : List (ℤ × ℕ) :=
  sortByCountDesc (counterItems query_targets)

/-- The local `high_value_targets`: identifiers with count ≥ 2, in ranking
order. -/
def high_value_targets (query_targets : List ℤ) : List ℤ :=
  ((ranking query_targets).filter fun p => 2 ≤ p.2).map Prod.fst

/-- `analyze_query_patterns(results)`: returns
`(target_frequencies, high_value_targets, max_queried_node)`; `none`
models the `ValueError` that `max(query_targets)` raises when
`detailed_results` is empty. -/
def analyze_query_patterns (detailed_results : List ℤ) :
    Option (List (ℤ × ℕ) × List ℤ × ℤ) :=
  let query_targets := detailed_results
  let target_frequencies := counterItems query_targets
  let hi := high_value_targets query_targets
  match pymax query_targets with
  | none => none
  | some max_queried_node => some (target_frequencies, hi, max_queried_node)

/-! ## Validator (`verify_constraints`, lines 97-136)

`NUM_NODES` is the module-level constant imported from
`scripts.constants` (that file is outside the inspected sources), so it
is passed here as an explicit parameter.  `none` models the `ValueError`
raised by `max(len(edges) for edges in graph.values())` on a graph with
no keys. -/

def verify_constraints (NUM_NODES : ℕ) (graph : Graph)
    (max_edges_per_node max_total_edges : ℕ) : Option Bool :=
  let total_edges := (graph.map fun p => p.2.length).sum
  if total_edges > max_total_edges then some false
  else
    match pymax (graph.map fun p => p.2.length) with
    | none => none
    | some max_node_edges =>
      if max_node_edges > max_edges_per_node then some false
      else if graph.length ≠ NUM_NODES then some false
      else if graph.any (fun p => p.2.any fun e => e.2 ≤ 0 ∨ 10 < e.2) then some false
      else some true

/-! ## Graph builder (`optimize_graph`, lines 173-271) -/

/-- Edges of an inner-ring node (lines 210-220): node `i < 9` links to
`i+1` at `PRIMARY_WEIGHT`; node 9 links to `str(INNER_RING_SIZE)` at
`SECONDARY_WEIGHT`. -/
def innerEdges (node_index : ℕ) : Edges :=
  if node_index < INNER_RING_SIZE - 1 then
    dinsert (str_of_nat (node_index + 1)) PRIMARY_WEIGHT []
  else
    dinsert (str_of_nat INNER_RING_SIZE) SECONDARY_WEIGHT []

/-- Medium-ring primary path (lines 227-234): next node, or the node-49
loopback to `"0"`; `edges_added` becomes 1.  The state pairs the node's
edge dict with the `edges_added` counter. -/
def mediumPrimary (node_index : ℕ) : Edges × ℕ :=
  if node_index < MEDIUM_RING_SIZE - 1 then
    (dinsert (str_of_nat (node_index + 1)) PRIMARY_WEIGHT [], 1)
  else
    (dinsert "0" MEDIUM_RING_LOOPBACK_WEIGHT [], 1)

/-- Medium-ring skip connection (lines 236-242): +3 ahead modulo the
medium-ring span, only if the budget allows and it is not a self-loop. -/
def mediumSkip (max_edges_per_node node_index : ℕ) (s : Edges × ℕ) : Edges × ℕ :=
  if s.2 < max_edges_per_node then
    if INNER_RING_SIZE + ((node_index - INNER_RING_SIZE + 3) % (MEDIUM_RING_SIZE - INNER_RING_SIZE))
        ≠ node_index then
      (dinsert
        (str_of_nat (INNER_RING_SIZE +
          ((node_index - INNER_RING_SIZE + 3) % (MEDIUM_RING_SIZE - INNER_RING_SIZE))))
        SECONDARY_WEIGHT s.1, s.2 + 1)
    else s
  else s

/-- Medium-ring backup edge to `"0"` (lines 244-247), only if the budget
allows. -/
def mediumBackup (max_edges_per_node : ℕ) (s : Edges × ℕ) : Edges × ℕ :=
  if s.2 < max_edges_per_node then (dinsert "0" BACKUP_WEIGHT s.1, s.2 + 1) else s

/-- Edges of a medium-ring node (lines 222-247): the three guarded writes
in sequence. -/
def mediumEdges (max_edges_per_node node_index : ℕ) : Edges :=
  (mediumBackup max_edges_per_node
    (mediumSkip max_edges_per_node node_index (mediumPrimary node_index))).1

/-- Edges of node `i` in the finished structure: the three tiers of the
builder loops. -/
def nodeEdges (max_edges_per_node node_index : ℕ) : Edges :=
  if node_index < INNER_RING_SIZE then innerEdges node_index
  else if node_index < MEDIUM_RING_SIZE then mediumEdges max_edges_per_node node_index
  else dinsert "0" PRIMARY_WEIGHT []

/-- The `optimized_graph` dict after the three construction loops:
keys `str(0) .. str(num_nodes-1)` in insertion order, each with its
tier's edges. -/
def buildRing (num_nodes max_edges_per_node : ℕ) : Graph :=
  (List.range num_nodes).map fun i => (str_of_nat i, nodeEdges max_edges_per_node i)

/-- `optimize_graph(initial_graph, results, num_nodes, max_total_edges,
max_edges_per_node)`.  `NUM_NODES` is the global constant read by the
inner `verify_constraints` call.  `none` models an uncaught exception,
in the order the script can raise them: the analyzer's `ValueError` on
an empty log (line 204, before the construction loops), the `KeyError`
the medium-ring loop (fixed range 10..49) hits when `num_nodes <
MEDIUM_RING_SIZE`, and the `ZeroDivisionError` of the edge-budget
utilization print (line 263, `final_edges/max_total_edges`) when
`max_total_edges = 0` — that print runs after construction and before
validation.  The result of `verify_constraints` is only logged; the
constructed graph is returned regardless of its value. -/
def optimize_graph (NUM_NODES : ℕ) (initial_graph : Graph) (results : List ℤ)
    (num_nodes max_total_edges max_edges_per_node : ℕ) : Option Graph :=
  match analyze_query_patterns results with
  | none => none
  | some _ =>
    if num_nodes < MEDIUM_RING_SIZE then none
    else if max_total_edges = 0 then none
    else
      match verify_constraints NUM_NODES (buildRing num_nodes max_edges_per_node)
          max_edges_per_node max_total_edges with
      | none => none
      | some _ => some (buildRing num_nodes max_edges_per_node)

/-! ## Helper lemmas about the dict model -/

theorem dinsert_length_le (k : String) (v : ℚ) (l : Edges) :
    (dinsert k v l).length ≤ l.length + 1 := by
  induction l with
  | nil => simp [dinsert]
  | cons q rest ih =>
    by_cases h : q.1 = k
    · simp [dinsert, h]
    · obtain ⟨k', v'⟩ := q
      simp only [dinsert, if_neg h, List.length_cons]
      omega

theorem lookup_eq_none_of_forall_ne {key : String} :
    ∀ {l : Graph}, (∀ p ∈ l, p.1 ≠ key) → List.lookup key l = none
  | [], _ => rfl
  | (k, v) :: rest, h => by
    have hk : k ≠ key := h (k, v) (by simp)
    have : (key == k) = false := by simp [Ne.symm hk]
    simp only [List.lookup, this]
    exact lookup_eq_none_of_forall_ne fun p hp => h p (by simp [hp])

theorem lookup_append_of_some {key : String} {l₁ : Graph} {v : Edges}
    (h : List.lookup key l₁ = some v) (l₂ : Graph) :
    List.lookup key (l₁ ++ l₂) = some v := by
  induction l₁ with
  | nil => simp [List.lookup] at h
  | cons q rest ih =>
    rcases hq : (key == q.1) with _ | _
    · obtain ⟨k, w⟩ := q
      simp only [List.lookup, hq] at h
      simpa only [List.cons_append, List.lookup, hq] using ih h
    · obtain ⟨k, w⟩ := q
      simp only [List.lookup, hq] at h
      simpa only [List.cons_append, List.lookup, hq] using h

theorem lookup_append_of_none {key : String} {l₁ : Graph}
    (h : List.lookup key l₁ = none) (l₂ : Graph) :
    List.lookup key (l₁ ++ l₂) = List.lookup key l₂ := by
  induction l₁ with
  | nil => rfl
  | cons q rest ih =>
    obtain ⟨k, w⟩ := q
    rcases hq : (key == k) with _ | _
    · simp only [List.lookup, hq] at h
      simpa only [List.cons_append, List.lookup, hq] using ih h
    · simp only [List.lookup, hq] at h
      exact absurd h (by simp)

/-- Looking up node `k` in the constructed graph gives exactly the edges
the builder assigned to it. -/
theorem lookup_buildRing {k : ℕ} (maxE : ℕ) :
    ∀ {n : ℕ}, k < n → List.lookup (str_of_nat k) (buildRing n maxE) = some (nodeEdges maxE k) := by
  intro n
  induction n with
  | zero => omega
  | succ m ih =>
    intro hk
    have hsplit : buildRing (m + 1) maxE =
        buildRing m maxE ++ [(str_of_nat m, nodeEdges maxE m)] := by
      simp [buildRing, List.range_succ]
    rcases Nat.lt_or_ge k m with hlt | hge
    · rw [hsplit]
      exact lookup_append_of_some (ih hlt) _
    · have hkm : k = m := by omega
      subst hkm
      have hnone : List.lookup (str_of_nat k) (buildRing k maxE) = none := by
        refine lookup_eq_none_of_forall_ne ?_
        intro p hp
        simp only [buildRing, List.mem_map, List.mem_range] at hp
        obtain ⟨i, hi, rfl⟩ := hp
        exact fun hcontra => absurd (str_of_nat_injective hcontra) (by omega)
      rw [hsplit, lookup_append_of_none hnone]
      simp [List.lookup]

/-- Inverting a successful run of `optimize_graph`: the returned graph is
the ring structure and `num_nodes` reached the medium ring. -/
theorem optimize_graph_inv {N : ℕ} {ig : Graph} {res : List ℤ} {n mt me : ℕ} {g : Graph}
    (h : optimize_graph N ig res n mt me = some g) :
    g = buildRing n me ∧ MEDIUM_RING_SIZE ≤ n := by
  unfold optimize_graph at h
  cases hA : analyze_query_patterns res with
  | none => rw [hA] at h; exact absurd h (by simp)
  | some a =>
    rw [hA] at h
    by_cases hn : n < MEDIUM_RING_SIZE
    · rw [if_pos hn] at h; exact absurd h (by simp)
    · rw [if_neg hn] at h
      by_cases hmt : mt = 0
      · rw [if_pos hmt] at h; exact absurd h (by simp)
      · rw [if_neg hmt] at h
        cases hV : verify_constraints N (buildRing n me) me mt with
        | none => rw [hV] at h; exact absurd h (by simp)
        | some b =>
          rw [hV] at h
          exact ⟨(Option.some.injEq _ _ ▸ h).symm, by omega⟩

/-! ## Lemmas about the builder's per-node edge lists -/

theorem mediumPrimary_snd (i : ℕ) : (mediumPrimary i).2 = 1 := by
  unfold mediumPrimary
  split <;> rfl

theorem mediumPrimary_fst_length (i : ℕ) : (mediumPrimary i).1.length = 1 := by
  unfold mediumPrimary
  split <;> rfl

theorem mediumSkip_invariant {me i : ℕ} {s : Edges × ℕ}
    (hlen : s.1.length ≤ s.2) (hcnt : s.2 ≤ me) :
    (mediumSkip me i s).1.length ≤ (mediumSkip me i s).2 ∧ (mediumSkip me i s).2 ≤ me := by
  unfold mediumSkip
  split
  · split
    · refine ⟨le_trans (dinsert_length_le _ _ _) (by omega), by omega⟩
    · exact ⟨hlen, hcnt⟩
  · exact ⟨hlen, hcnt⟩

theorem mediumBackup_invariant {me : ℕ} {s : Edges × ℕ}
    (hlen : s.1.length ≤ s.2) (hcnt : s.2 ≤ me) :
    (mediumBackup me s).1.length ≤ (mediumBackup me s).2 ∧ (mediumBackup me s).2 ≤ me := by
  unfold mediumBackup
  split
  · refine ⟨le_trans (dinsert_length_le _ _ _) (by omega), by omega⟩
  · exact ⟨hlen, hcnt⟩

/-- With a positive budget, the guarded medium-ring writes keep every
node within `max_edges_per_node` edges. -/
theorem mediumEdges_length_le {me : ℕ} (h : 1 ≤ me) (i : ℕ) :
    (mediumEdges me i).length ≤ me := by
  have h1 : (mediumPrimary i).1.length ≤ (mediumPrimary i).2 := by
    rw [mediumPrimary_snd, mediumPrimary_fst_length]
  have h2 : (mediumPrimary i).2 ≤ me := by rw [mediumPrimary_snd]; exact h
  have h3 := @mediumSkip_invariant me i (mediumPrimary i) h1 h2
  have h4 := @mediumBackup_invariant me (mediumSkip me i (mediumPrimary i)) h3.1 h3.2
  exact le_trans h4.1 h4.2

theorem innerEdges_length (i : ℕ) : (innerEdges i).length = 1 := by
  unfold innerEdges
  split <;> rfl

/-- Every node of the constructed structure respects the per-node budget
as soon as that budget is at least 1. -/
theorem nodeEdges_length_le {me : ℕ} (h : 1 ≤ me) (i : ℕ) :
    (nodeEdges me i).length ≤ me := by
  unfold nodeEdges
  split
  · rw [innerEdges_length]; exact h
  · split
    · exact mediumEdges_length_le h i
    · exact h

/-- Node 49's edges when the budget admits all three writes: the backup
write to key `"0"` overwrites the 9.0 loopback in place, leaving
`[("0", 1.0), ("12", 8.0)]`. -/
theorem mediumEdges_49 {me : ℕ} (h : 3 ≤ me) :
    mediumEdges me 49 = [("0", BACKUP_WEIGHT), ("12", SECONDARY_WEIGHT)] := by
  have hp : mediumPrimary 49 = ([("0", MEDIUM_RING_LOOPBACK_WEIGHT)], 1) := rfl
  have hs : mediumSkip me 49 ([("0", MEDIUM_RING_LOOPBACK_WEIGHT)], 1) =
      ([("0", MEDIUM_RING_LOOPBACK_WEIGHT), ("12", SECONDARY_WEIGHT)], 2) := by
    unfold mediumSkip
    rw [if_pos (show (([("0", MEDIUM_RING_LOOPBACK_WEIGHT)], 1) : Edges × ℕ).2 < me by omega)]
    decide
  have hb : mediumBackup me ([("0", MEDIUM_RING_LOOPBACK_WEIGHT), ("12", SECONDARY_WEIGHT)], 2) =
      ([("0", BACKUP_WEIGHT), ("12", SECONDARY_WEIGHT)], 3) := by
    unfold mediumBackup
    rw [if_pos (show (([("0", MEDIUM_RING_LOOPBACK_WEIGHT), ("12", SECONDARY_WEIGHT)], 2) :
      Edges × ℕ).2 < me by omega)]
    decide
  unfold mediumEdges
  rw [hp, hs, hb]

/-! ## Lemmas about the analyzer's stable descending sort -/

theorem insertByCount_perm (p : ℤ × ℕ) : ∀ l : List (ℤ × ℕ), List.Perm (insertByCount p l) (p :: l)
  | [] => List.Perm.refl _
  | q :: rest => by
    unfold insertByCount
    split
    · exact List.Perm.refl _
    · exact ((insertByCount_perm p rest).cons q).trans (List.Perm.swap p q rest)

theorem sortByCountDesc_perm : ∀ l : List (ℤ × ℕ), List.Perm (sortByCountDesc l) l
  | [] => List.Perm.refl _
  | p :: rest =>
    (insertByCount_perm p (sortByCountDesc rest)).trans ((sortByCountDesc_perm rest).cons p)

theorem insertByCount_pairwise {p : ℤ × ℕ} :
    ∀ {l : List (ℤ × ℕ)}, l.Pairwise (fun a b => b.2 ≤ a.2) →
      (insertByCount p l).Pairwise (fun a b => b.2 ≤ a.2)
  | [], _ => List.pairwise_singleton _ _
  | q :: rest, hl => by
    unfold insertByCount
    rw [List.pairwise_cons] at hl
    split
    · rename_i hq
      refine List.pairwise_cons.mpr ⟨?_, List.pairwise_cons.mpr hl⟩
      intro y hy
      rcases List.mem_cons.mp hy with rfl | hy'
      · exact hq
      · exact le_trans (hl.1 y hy') hq
    · rename_i hq
      refine List.pairwise_cons.mpr ⟨?_, insertByCount_pairwise hl.2⟩
      intro y hy
      rcases List.mem_cons.mp ((insertByCount_perm p rest).mem_iff.mp hy) with rfl | hy'
      · omega
      · exact hl.1 y hy'

theorem sortByCountDesc_pairwise : ∀ l : List (ℤ × ℕ),
    (sortByCountDesc l).Pairwise (fun a b => b.2 ≤ a.2)
  | [] => List.Pairwise.nil
  | p :: rest => insertByCount_pairwise (sortByCountDesc_pairwise rest)

theorem filter_insertByCount_self (p : ℤ × ℕ) :
    ∀ l : List (ℤ × ℕ), (insertByCount p l).filter (fun q => q.2 = p.2) =
      p :: l.filter (fun q => q.2 = p.2)
  | [] => by simp [insertByCount]
  | q :: rest => by
    unfold insertByCount
    split
    · simp
    · rename_i hq
      have hqp : (decide (q.2 = p.2)) = false := by
        simp only [decide_eq_false_iff_not]
        omega
      simp only [List.filter_cons, hqp, Bool.false_eq_true, ite_false,
        filter_insertByCount_self p rest]

theorem filter_insertByCount_ne {p : ℤ × ℕ} {c : ℕ} (hc : p.2 ≠ c) :
    ∀ l : List (ℤ × ℕ), (insertByCount p l).filter (fun q => q.2 = c) =
      l.filter (fun q => q.2 = c)
  | [] => by simp [insertByCount, hc]
  | q :: rest => by
    unfold insertByCount
    split
    · simp [hc]
    · simp only [List.filter_cons, filter_insertByCount_ne hc rest]

/-- Stability of the analyzer's sort: within each count class the sorted
ranking lists the identifiers exactly in their original (first-encounter)
order. -/
theorem filter_sortByCountDesc (c : ℕ) : ∀ l : List (ℤ × ℕ),
    (sortByCountDesc l).filter (fun q => q.2 = c) = l.filter (fun q => q.2 = c)
  | [] => rfl
  | p :: rest => by
    unfold sortByCountDesc
    by_cases hp : p.2 = c
    · subst hp
      rw [filter_insertByCount_self, filter_sortByCountDesc p.2 rest]
      simp
    · rw [filter_insertByCount_ne hp, filter_sortByCountDesc c rest]
      simp [hp]

theorem mem_firstOccurrences {t : ℤ} : ∀ {l : List ℤ}, t ∈ firstOccurrences l ↔ t ∈ l
  | [] => Iff.rfl
  | a :: rest => by
    unfold firstOccurrences
    by_cases ht : t = a
    · subst ht; simp
    · simp only [List.mem_cons, List.mem_filter, @mem_firstOccurrences t rest,
        decide_eq_true_eq, ht, false_or]
      constructor
      · exact fun h => h.1
      · exact fun h => ⟨h, by simp [ht]⟩

theorem mem_counterItems {t : ℤ} {c : ℕ} {l : List ℤ} :
    (t, c) ∈ counterItems l ↔ t ∈ l ∧ c = l.count t := by
  unfold counterItems
  simp only [List.mem_map, Prod.mk.injEq]
  constructor
  · rintro ⟨s, hs, rfl, rfl⟩
    exact ⟨mem_firstOccurrences.mp hs, rfl⟩
  · rintro ⟨ht, rfl⟩
    exact ⟨t, mem_firstOccurrences.mpr ht, rfl, rfl⟩

/-- Membership in the analyzer's high-value list is exactly "queried at
least twice". -/
theorem mem_high_value_targets {t : ℤ} {l : List ℤ} :
    t ∈ high_value_targets l ↔ 2 ≤ l.count t := by
  unfold high_value_targets ranking
  simp only [List.mem_map, List.mem_filter, decide_eq_true_eq]
  constructor
  · rintro ⟨⟨s, c⟩, ⟨hmem, hc⟩, rfl⟩
    have h := mem_counterItems.mp ((sortByCountDesc_perm _).mem_iff.mp hmem)
    dsimp only at h hc ⊢
    omega
  · intro h2
    have ht : t ∈ l := by
      by_contra hnot
      rw [List.count_eq_zero.mpr hnot] at h2
      omega
    refine ⟨(t, l.count t), ⟨?_, h2⟩, rfl⟩
    exact (sortByCountDesc_perm _).mem_iff.mpr (mem_counterItems.mpr ⟨ht, rfl⟩)

/-! ## Lemmas about `pymax` (Python's `max`) -/

theorem foldl_max_le_iff : ∀ (l : List ℕ) (a c : ℕ),
    l.foldl max a ≤ c ↔ a ≤ c ∧ ∀ x ∈ l, x ≤ c
  | [], a, c => by simp
  | x :: xs, a, c => by
    simp only [List.foldl_cons, foldl_max_le_iff xs (max a x) c, max_le_iff, List.mem_cons]
    constructor
    · rintro ⟨⟨ha, hx⟩, hrest⟩
      exact ⟨ha, fun y hy => by rcases hy with rfl | hy; exacts [hx, hrest y hy]⟩
    · rintro ⟨ha, hall⟩
      exact ⟨⟨ha, hall x (by simp)⟩, fun y hy => hall y (by simp [hy])⟩

theorem pymax_le_iff {l : List ℕ} {M c : ℕ} (h : pymax l = some M) :
    (M ≤ c ↔ ∀ x ∈ l, x ≤ c) := by
  match l with
  | [] => simp [pymax] at h
  | x :: xs =>
    simp only [pymax, Option.some.injEq] at h
    subst h
    rw [foldl_max_le_iff]
    simp

/-! ## Totality helpers -/

theorem pymax_eq_none_iff {α : Type} [Max α] {l : List α} : pymax l = none ↔ l = [] := by
  cases l <;> simp [pymax]

theorem analyze_isSome {res : List ℤ} (h : res ≠ []) :
    ∃ x, analyze_query_patterns res = some x := by
  match res with
  | [] => exact absurd rfl h
  | t :: rest => exact ⟨_, rfl⟩

theorem verify_constraints_isSome {N : ℕ} {graph : Graph} {me mt : ℕ} (hne : graph ≠ []) :
    ∃ b, verify_constraints N graph me mt = some b := by
  unfold verify_constraints
  by_cases h1 : (graph.map fun p => p.2.length).sum > mt
  · exact ⟨false, by rw [if_pos h1]⟩
  · rw [if_neg h1]
    cases hM : pymax (graph.map fun p => p.2.length) with
    | none =>
      rw [pymax_eq_none_iff, List.map_eq_nil_iff] at hM
      exact absurd hM hne
    | some M =>
      dsimp only
      by_cases h2 : M > me
      · exact ⟨false, by rw [if_pos h2]⟩
      · rw [if_neg h2]
        by_cases h3 : graph.length ≠ N
        · exact ⟨false, by rw [if_pos h3]⟩
        · rw [if_neg h3]
          by_cases h4 : graph.any (fun p => p.2.any fun e => e.2 ≤ 0 ∨ 10 < e.2) = true
          · exact ⟨false, by rw [if_pos h4]⟩
          · exact ⟨true, by rw [if_neg h4]⟩

theorem buildRing_ne_nil {n me : ℕ} (hn : 0 < n) : buildRing n me ≠ [] := by
  have hlen : (buildRing n me).length = n := by simp [buildRing]
  intro hcon
  rw [hcon] at hlen
  simp at hlen
  omega

/-- A non-empty query log, `num_nodes` reaching the medium ring and a
non-zero total edge budget (so the utilization print does not divide by
zero) make `optimize_graph` return the ring structure (no exception is
raised and the validation outcome is ignored). -/
theorem optimize_graph_total {N : ℕ} {ig : Graph} {res : List ℤ} {n mt me : ℕ}
    (hres : res ≠ []) (hn : MEDIUM_RING_SIZE ≤ n) (hmt : mt ≠ 0) :
    optimize_graph N ig res n mt me = some (buildRing n me) := by
  unfold optimize_graph
  obtain ⟨x, hx⟩ := analyze_isSome hres
  rw [hx, if_neg (by omega), if_neg hmt]
  have hpos : 0 < n := by
    have : (0 : ℕ) < MEDIUM_RING_SIZE := by norm_num [MEDIUM_RING_SIZE]
    omega
  obtain ⟨b, hb⟩ := @verify_constraints_isSome N (buildRing n me) me mt
    (@buildRing_ne_nil n me hpos)
  rw [hb]

theorem nodeEdges_inner {me i : ℕ} (h : i < INNER_RING_SIZE) :
    nodeEdges me i = innerEdges i := by
  unfold nodeEdges
  rw [if_pos h]

theorem nodeEdges_medium {me i : ℕ} (h1 : INNER_RING_SIZE ≤ i) (h2 : i < MEDIUM_RING_SIZE) :
    nodeEdges me i = mediumEdges me i := by
  unfold nodeEdges
  rw [if_neg (by omega), if_pos h2]

theorem nodeEdges_overflow {me i : ℕ} (h : MEDIUM_RING_SIZE ≤ i) :
    nodeEdges me i = [("0", PRIMARY_WEIGHT)] := by
  have h' : INNER_RING_SIZE ≤ i := by
    have : INNER_RING_SIZE ≤ MEDIUM_RING_SIZE := by norm_num [INNER_RING_SIZE, MEDIUM_RING_SIZE]
    omega
  unfold nodeEdges
  rw [if_neg (by omega), if_neg (by omega)]
  rfl

/-! ## Claim theorems -/

/-- C1: in the graph returned by `optimize_graph` with the default
constants and `max_edges_per_node ≥ 3`, node `"49"`'s edge to `"0"` ends
at `BACKUP_WEIGHT = 1.0`: the loopback write of 9.0 to key `"0"` is
overwritten by the later backup write (last-write-wins), so node `"49"`
carries no edge of weight 9.0. -/
theorem C1_node49_loopback_overwritten (NUM_NODES : ℕ) (initial_graph : Graph)
    (results : List ℤ) (num_nodes max_total_edges max_edges_per_node : ℕ) (g : Graph)
    (hg : optimize_graph NUM_NODES initial_graph results num_nodes max_total_edges
      max_edges_per_node = some g)
    (hme : 3 ≤ max_edges_per_node) :
    ∃ e, List.lookup "49" g = some e ∧ List.lookup "0" e = some BACKUP_WEIGHT ∧
      ∀ p ∈ e, p.2 ≠ MEDIUM_RING_LOOPBACK_WEIGHT := by
  obtain ⟨rfl, hn⟩ := optimize_graph_inv hg
  have h49 : (49 : ℕ) < num_nodes := by
    simp only [MEDIUM_RING_SIZE] at hn
    omega
  refine ⟨mediumEdges max_edges_per_node 49, ?_, ?_, ?_⟩
  · rw [show ("49" : String) = str_of_nat 49 by decide, lookup_buildRing _ h49,
      nodeEdges_medium (by norm_num [INNER_RING_SIZE]) (by norm_num [MEDIUM_RING_SIZE])]
  · rw [mediumEdges_49 hme]
    decide
  · rw [mediumEdges_49 hme]
    decide

/-- Witness for C1 at a concrete input. -/
theorem C1_witness :
    ∃ g, optimize_graph 500 [] [0] 50 400 3 = some g ∧
      ∃ e, List.lookup "49" g = some e ∧ List.lookup "0" e = some BACKUP_WEIGHT ∧
        ∀ p ∈ e, p.2 ≠ MEDIUM_RING_LOOPBACK_WEIGHT :=
  ⟨buildRing 50 3, rfl,
    C1_node49_loopback_overwritten 500 [] [0] 50 400 3 (buildRing 50 3) rfl (by norm_num)⟩

/-- C2 (counterexample to the claim as stated): `verify_constraints` is
not exception-free on every graph input — on a graph with zero node keys
(and limits 3 and 12) the per-node maximum is `max()` of an empty
sequence, which raises `ValueError` (modelled by `none`) instead of
returning `False` for the node-count violation. -/
theorem C2_counterexample_empty_graph_raises :
    verify_constraints 500 [] 3 12 = none := rfl

/-- C2 (amended): for every graph with at least one node key,
`verify_constraints` never raises: it returns `False` on any violation
of the four checks and `True` exactly when all four pass.  (On a graph
with zero node keys it raises `ValueError` instead of reporting the
node-count violation.) -/
theorem C2_verify_reports_by_return_value (NUM_NODES : ℕ) (graph : Graph)
    (max_edges_per_node max_total_edges : ℕ) (hne : graph ≠ []) :
    ∃ b, verify_constraints NUM_NODES graph max_edges_per_node max_total_edges = some b ∧
      (b = true ↔
        ((graph.map fun p => p.2.length).sum ≤ max_total_edges ∧
         (∀ p ∈ graph, p.2.length ≤ max_edges_per_node) ∧
         graph.length = NUM_NODES ∧
         ∀ p ∈ graph, ∀ e ∈ p.2, 0 < e.2 ∧ e.2 ≤ 10)) := by
  unfold verify_constraints
  by_cases h1 : (graph.map fun p => p.2.length).sum > max_total_edges
  · rw [if_pos h1]
    refine ⟨false, rfl, ?_⟩
    simp only [Bool.false_eq_true, false_iff]
    intro hc
    omega
  · rw [if_neg h1]
    cases hM : pymax (graph.map fun p => p.2.length) with
    | none =>
      rw [pymax_eq_none_iff, List.map_eq_nil_iff] at hM
      exact absurd hM hne
    | some M =>
      dsimp only
      have hMle : ∀ c, (M ≤ c ↔ ∀ p ∈ graph, p.2.length ≤ c) := by
        intro c
        rw [pymax_le_iff hM]
        constructor
        · intro h p hp
          exact h p.2.length (List.mem_map.mpr ⟨p, hp, rfl⟩)
        · rintro h x hx
          obtain ⟨p, hp, rfl⟩ := List.mem_map.mp hx
          exact h p hp
      by_cases h2 : M > max_edges_per_node
      · rw [if_pos h2]
        refine ⟨false, rfl, ?_⟩
        simp only [Bool.false_eq_true, false_iff]
        intro hc
        exact absurd ((hMle max_edges_per_node).mpr hc.2.1) (by omega)
      · rw [if_neg h2]
        by_cases h3 : graph.length ≠ NUM_NODES
        · rw [if_pos h3]
          refine ⟨false, rfl, ?_⟩
          simp only [Bool.false_eq_true, false_iff]
          intro hc
          exact h3 hc.2.2.1
        · rw [if_neg h3]
          by_cases h4 : graph.any (fun p => p.2.any fun e => e.2 ≤ 0 ∨ 10 < e.2) = true
          · rw [if_pos h4]
            refine ⟨false, rfl, ?_⟩
            simp only [Bool.false_eq_true, false_iff]
            intro hc
            simp only [List.any_eq_true, decide_eq_true_eq] at h4
            obtain ⟨p, hp, e, he, hbad⟩ := h4
            have hgood := hc.2.2.2 p hp e he
            rcases hbad with hb | hb
            · linarith [hgood.1]
            · linarith [hgood.2]
          · rw [if_neg h4]
            refine ⟨true, rfl, ?_⟩
            simp only [true_iff]
            refine ⟨by omega, (hMle max_edges_per_node).mp (by omega), by omega, ?_⟩
            intro p hp e he
            simp only [List.any_eq_true, decide_eq_true_eq] at h4
            push_neg at h4
            exact h4 p hp e he

/-- Witness for C2 (amended) at a concrete non-empty graph. -/
theorem C2_witness :
    ∃ b, verify_constraints 1 [("0", [("1", 5)])] 3 12 = some b ∧
      (b = true ↔
        (([("0", [("1", (5 : ℚ))])].map fun p => p.2.length).sum ≤ 12 ∧
         (∀ p ∈ [("0", [("1", (5 : ℚ))])], p.2.length ≤ 3) ∧
         [("0", [("1", (5 : ℚ))])].length = 1 ∧
         ∀ p ∈ [("0", [("1", (5 : ℚ))])], ∀ e ∈ p.2, 0 < e.2 ∧ e.2 ≤ 10)) :=
  C2_verify_reports_by_return_value 1 [("0", [("1", 5)])] 3 12 (by decide)

/-- C3 (counterexample to the claim as stated): with
`max_edges_per_node = 0` the medium-ring primary edge is still written
unconditionally, so node `"10"` has one outgoing edge, exceeding the
budget of 0. -/
theorem C3_counterexample_budget_zero :
    ∃ g, optimize_graph 500 [] [0] 50 400 0 = some g ∧
      ∃ p ∈ g, ¬p.2.length ≤ 0 := by
  refine ⟨buildRing 50 0, rfl, ("10", [("11", 10)]), ?_, by decide⟩
  decide

/-- C3 (amended): for every `max_edges_per_node ≥ 1` (the primary edge of
each tier is written unconditionally, so 0 is excluded) and every
`num_nodes ≥ MEDIUM_RING_SIZE`, every node of the graph returned by
`optimize_graph` has at most `max_edges_per_node` outgoing edges; the
skip and backup writes happen only while the budget allows. -/
theorem C3_per_node_budget (NUM_NODES : ℕ) (initial_graph : Graph) (results : List ℤ)
    (num_nodes max_total_edges max_edges_per_node : ℕ) (g : Graph)
    (hg : optimize_graph NUM_NODES initial_graph results num_nodes max_total_edges
      max_edges_per_node = some g)
    (hme : 1 ≤ max_edges_per_node) :
    ∀ p ∈ g, p.2.length ≤ max_edges_per_node := by
  obtain ⟨rfl, hn⟩ := optimize_graph_inv hg
  intro p hp
  simp only [buildRing, List.mem_map, List.mem_range] at hp
  obtain ⟨i, hi, rfl⟩ := hp
  exact nodeEdges_length_le hme i

/-- Witness for C3 (amended) at a concrete input. -/
theorem C3_witness :
    ∃ g, optimize_graph 500 [] [0] 50 400 3 = some g ∧ ∀ p ∈ g, p.2.length ≤ 3 :=
  ⟨buildRing 50 3, rfl,
    C3_per_node_budget 500 [] [0] 50 400 3 (buildRing 50 3) rfl (by norm_num)⟩

/-- C4: whenever `optimize_graph` returns a graph (which requires
`num_nodes ≥ MEDIUM_RING_SIZE` and a well-formed, non-empty results
log), its key list is exactly `str(0), …, str(num_nodes-1)`: every node
in `[0, num_nodes)` is present as a key and no other key exists. -/
theorem C4_key_set (NUM_NODES : ℕ) (initial_graph : Graph) (results : List ℤ)
    (num_nodes max_total_edges max_edges_per_node : ℕ) (g : Graph)
    (hg : optimize_graph NUM_NODES initial_graph results num_nodes max_total_edges
      max_edges_per_node = some g) :
    g.map Prod.fst = (List.range num_nodes).map str_of_nat := by
  obtain ⟨rfl, hn⟩ := optimize_graph_inv hg
  simp [buildRing, List.map_map]

/-- Witness for C4 at a concrete input (a real run: the log is
non-empty, `num_nodes = 50` and `max_total_edges = 400 ≠ 0`, so the
program returns the graph). -/
theorem C4_witness :
    ∃ g, optimize_graph 500 [] [0] 50 400 3 = some g ∧
      g.map Prod.fst = (List.range 50).map str_of_nat :=
  ⟨buildRing 50 3, rfl, C4_key_set 500 [] [0] 50 400 3 (buildRing 50 3) rfl⟩

/-- C5: on the targets `[0,0,1,2,2,2]` the analyzer returns frequency
items `{0:2, 1:1, 2:3}`, high-value targets `[2,0]` and max 2 (the
ranking being `[(2,3),(0,2),(1,1)]`); in general the internal ranking is
sorted by count descending, ties keep first-encounter order (the filter
by any fixed count is unchanged), and the high-value targets are exactly
the identifiers with count ≥ 2, in ranking order. -/
theorem C5_analyzer_ranking :
    (analyze_query_patterns [0, 0, 1, 2, 2, 2] =
      some ([(0, 2), (1, 1), (2, 3)], [2, 0], 2) ∧
     ranking [0, 0, 1, 2, 2, 2] = [(2, 3), (0, 2), (1, 1)]) ∧
    ∀ l : List ℤ,
      (ranking l).Pairwise (fun a b => b.2 ≤ a.2) ∧
      (∀ c, (ranking l).filter (fun q => q.2 = c) = (counterItems l).filter fun q => q.2 = c) ∧
      high_value_targets l = ((ranking l).filter fun p => 2 ≤ p.2).map Prod.fst ∧
      ∀ t : ℤ, t ∈ high_value_targets l ↔ 2 ≤ l.count t :=
  ⟨⟨by decide, by decide⟩, fun l =>
    ⟨sortByCountDesc_pairwise _, fun c => filter_sortByCountDesc c _, rfl,
     fun t => mem_high_value_targets⟩⟩

/-- C6: in the returned graph (default constants,
`max_edges_per_node ≥ 1`), every inner-ring node `i < 9` has the single
edge `i → i+1` at weight 10.0, and node 9 has the single edge to node 10
at weight 8.0. -/
theorem C6_inner_ring (NUM_NODES : ℕ) (initial_graph : Graph) (results : List ℤ)
    (num_nodes max_total_edges max_edges_per_node : ℕ) (g : Graph)
    (hg : optimize_graph NUM_NODES initial_graph results num_nodes max_total_edges
      max_edges_per_node = some g)
    (hme : 1 ≤ max_edges_per_node) :
    (∀ i < 9, List.lookup (str_of_nat i) g = some [(str_of_nat (i + 1), PRIMARY_WEIGHT)]) ∧
    List.lookup "9" g = some [("10", SECONDARY_WEIGHT)] := by
  obtain ⟨rfl, hn⟩ := optimize_graph_inv hg
  have h50 : (50 : ℕ) ≤ num_nodes := by simpa only [MEDIUM_RING_SIZE] using hn
  constructor
  · intro i hi
    rw [lookup_buildRing _ (by omega), nodeEdges_inner (by simp only [INNER_RING_SIZE]; omega)]
    unfold innerEdges
    rw [if_pos (by simp only [INNER_RING_SIZE]; omega)]
    rfl
  · rw [show ("9" : String) = str_of_nat 9 by decide, lookup_buildRing _ (by omega),
      nodeEdges_inner (by norm_num [INNER_RING_SIZE])]
    rfl

/-- Witness for C6 at a concrete input. -/
theorem C6_witness :
    ∃ g, optimize_graph 500 [] [0] 50 400 3 = some g ∧
      ((∀ i < 9, List.lookup (str_of_nat i) g = some [(str_of_nat (i + 1), PRIMARY_WEIGHT)]) ∧
       List.lookup "9" g = some [("10", SECONDARY_WEIGHT)]) :=
  ⟨buildRing 50 3, rfl,
    C6_inner_ring 500 [] [0] 50 400 3 (buildRing 50 3) rfl (by norm_num)⟩

/-- C7: in the returned graph (default constants), every overflow node
`i` with `MEDIUM_RING_SIZE ≤ i < num_nodes` has exactly one outgoing
edge, to node `"0"`, at weight 10.0. -/
theorem C7_overflow_redirect (NUM_NODES : ℕ) (initial_graph : Graph) (results : List ℤ)
    (num_nodes max_total_edges max_edges_per_node : ℕ) (g : Graph)
    (hg : optimize_graph NUM_NODES initial_graph results num_nodes max_total_edges
      max_edges_per_node = some g) :
    ∀ i, MEDIUM_RING_SIZE ≤ i → i < num_nodes →
      List.lookup (str_of_nat i) g = some [("0", PRIMARY_WEIGHT)] := by
  obtain ⟨rfl, hn⟩ := optimize_graph_inv hg
  intro i h1 h2
  rw [lookup_buildRing _ h2, nodeEdges_overflow h1]

/-- Witness for C7 at a concrete input with an overflow node. -/
theorem C7_witness :
    ∃ g, optimize_graph 500 [] [0] 51 400 3 = some g ∧
      List.lookup (str_of_nat 50) g = some [("0", PRIMARY_WEIGHT)] :=
  ⟨buildRing 51 3, rfl,
    C7_overflow_redirect 500 [] [0] 51 400 3 (buildRing 51 3) rfl 50 (by decide) (by decide)⟩

/-- C8 (counterexample to the claim as stated): at
`max_total_edges = 0` the constructed 129-edge graph would fail
validation (`verify_constraints` returns `False` on it), yet the graph
is not returned: the edge-budget-utilization print
(`final_edges/max_total_edges`, line 263) raises `ZeroDivisionError`
before `verify_constraints` is ever called, so the run aborts. -/
theorem C8_counterexample_zero_budget :
    verify_constraints 500 (buildRing 50 3) 3 0 = some false ∧
    optimize_graph 500 [] [0] 50 0 3 = none := by
  constructor
  · decide
  · rfl

/-- C8 (amended): a constraint violation never aborts `optimize_graph`:
whenever the run reaches the validation step (in particular
`max_total_edges ≠ 0`, so the utilization print before it does not
raise `ZeroDivisionError`) and `verify_constraints` returns `False` on
the constructed graph, the failure is only logged and the (possibly
invalid) graph is still returned unchanged. -/
theorem C8_soft_fail_validation (NUM_NODES : ℕ) (initial_graph : Graph) (results : List ℤ)
    (num_nodes max_total_edges max_edges_per_node : ℕ)
    (hres : results ≠ []) (hn : MEDIUM_RING_SIZE ≤ num_nodes)
    (hmt : max_total_edges ≠ 0)
    (hfail : verify_constraints NUM_NODES (buildRing num_nodes max_edges_per_node)
      max_edges_per_node max_total_edges = some false) :
    optimize_graph NUM_NODES initial_graph results num_nodes max_total_edges
      max_edges_per_node = some (buildRing num_nodes max_edges_per_node) := by
  unfold optimize_graph
  obtain ⟨x, hx⟩ := analyze_isSome hres
  rw [hx, if_neg (by omega), if_neg hmt, hfail]

/-- Witness for C8 (amended): with `max_total_edges = 12` the 129-edge
graph fails validation, yet `optimize_graph` still returns it. -/
theorem C8_witness :
    optimize_graph 500 [] [0] 50 12 3 = some (buildRing 50 3) :=
  C8_soft_fail_validation 500 [] [0] 50 12 3 (by decide) (by decide) (by decide) (by decide)

/-- C9: `optimize_graph` is deterministic and its output does not depend
on `initial_graph`: runs with identical results and numeric parameters
but different initial graphs return the same graph, and the same graph
as a run with an empty initial graph (so no edge of `initial_graph` is
reused). -/
theorem C9_initial_graph_independence (NUM_NODES : ℕ) (results : List ℤ)
    (num_nodes max_total_edges max_edges_per_node : ℕ) (ig₁ ig₂ : Graph) :
    optimize_graph NUM_NODES ig₁ results num_nodes max_total_edges max_edges_per_node =
      optimize_graph NUM_NODES ig₂ results num_nodes max_total_edges max_edges_per_node ∧
    optimize_graph NUM_NODES ig₁ results num_nodes max_total_edges max_edges_per_node =
      optimize_graph NUM_NODES [] results num_nodes max_total_edges max_edges_per_node :=
  ⟨rfl, rfl⟩

/-- C10: the analyzer (and therefore `optimize_graph`) requires a
non-empty query log: on an empty `detailed_results` it raises (`max` of
an empty sequence, modelled by `none`), while on any log with at least
one target entry it returns normally. -/
theorem C10_empty_log_raises (NUM_NODES : ℕ) (initial_graph : Graph)
    (num_nodes max_total_edges max_edges_per_node : ℕ) :
    analyze_query_patterns [] = none ∧
    optimize_graph NUM_NODES initial_graph [] num_nodes max_total_edges max_edges_per_node =
      none ∧
    ∀ (t : ℤ) (rest : List ℤ), (analyze_query_patterns (t :: rest)).isSome = true :=
  ⟨rfl, rfl, fun _ _ => rfl⟩

end BogoDB
